import Mathlib

/-!
# Verification of the git-agent extraction and heuristic layer

A shallow embedding of the repository's parsing and analysis core:
the commit-log parser (`parseGitLogEntry`, `parseGitStats`), the
status-line parser (`parseFileStatus`), the unified-diff parser
(`GitService.parseDiff`), the blame parser (`GitService.parseBlame`),
the impact analyzer (`CodeAnalysisService.analyzeFiles`) and the commit
message composer (`CommitMessageService`).

JavaScript strings are modelled as `List Char` (`Str`).  JS `undefined`
for a possibly-absent string is modelled as `Option Str` with `none` for
`undefined`.  Numeric fields are modelled as `Nat`; the float formulas
of the impact analyzer are evaluated exactly over the rationals (the
code combines integer counts with the constants 0.3/0.7 and 0.6/0.4 and
floors the result, which is expressed below with exact integer
arithmetic; comments at each definition record the correspondence).
-/

namespace GitAgent

/-- JS strings, modelled as lists of characters. -/
abbrev Str := List Char

/-! ## Generic string helpers (models of the JS string primitives used) -/

/-- Model of JS `String.prototype.startsWith`: `startsWithCL pat s` is
`true` iff `pat` is a prefix of `s`. -/
def startsWithCL : Str → Str → Bool
  | [], _ => true
  | _ :: _, [] => false
  | p :: ps, c :: cs => p == c && startsWithCL ps cs

/-- Strip a literal prefix, returning the remainder on success. -/
def stripPrefixCL : Str → Str → Option Str
  | [], s => some s
  | _ :: _, [] => none
  | p :: ps, c :: cs => if p == c then stripPrefixCL ps cs else none

/-- Model of JS `s.split(sep)` for a single-character separator class:
splits at every character satisfying `p`, keeping empty segments (JS
semantics).  `split` of the empty string is `[""]`. -/
def splitOnPred (p : Char → Bool) : Str → List Str
  | [] => [[]]
  | c :: cs =>
    if p c then [] :: splitOnPred p cs
    else
      match splitOnPred p cs with
      | [] => [[c]]
      | r :: rs => (c :: r) :: rs

/-- Model of `s.split('\n')`. -/
def splitOnNL (l : Str) : List Str := splitOnPred (fun c => c == '\n') l

/-- Model of JS `s.split('\n\n')` (two-character literal separator,
non-overlapping, left to right). -/
def splitOnDoubleNL : Str → List Str
  | '\n' :: '\n' :: rest => [] :: splitOnDoubleNL rest
  | c :: cs =>
    match splitOnDoubleNL cs with
    | [] => [[c]]
    | r :: rs => (c :: r) :: rs
  | [] => [[]]

/-- The remainder of `s` after the first occurrence of `pat`
(`none` when `pat` does not occur).  Used to model regex searches for a
literal followed by further context. -/
def afterFirst (pat : Str) : Str → Option Str
  | [] => if pat.isEmpty then some [] else none
  | c :: cs =>
    if startsWithCL pat (c :: cs) then some ((c :: cs).drop pat.length)
    else afterFirst pat cs

/-- Model of JS `s.includes(pat)` / a regex search for a literal. -/
def containsSub (pat s : Str) : Bool := (afterFirst pat s).isSome

/-- Model of JS `\s` (ASCII whitespace classes; the patterns in this
code base only ever meet these). -/
def isJsSpace (c : Char) : Bool :=
  c == ' ' || c == '\t' || c == '\n' || c == '\r' || c == '\x0b' || c == '\x0c'

/-- Model of JS `s.trim()`. -/
def trimCL (l : Str) : Str :=
  ((l.dropWhile isJsSpace).reverse.dropWhile isJsSpace).reverse

/-- Model of JS `s.toLowerCase()` on the ASCII patterns used here. -/
def toLowerCL (l : Str) : Str := l.map Char.toLower

/-- Value of a string of decimal digits; model of `parseInt(d, 10)` for
the all-digit capture groups produced by the regexes below. -/
def digitsToNat (l : Str) : Nat :=
  l.foldl (fun a c => a * 10 + (c.toNat - '0'.toNat)) 0

/-- Model of `(takeWhile isDigit, dropWhile isDigit)`: the greedy `\d+` step of
the regexes (a `\d+` followed by a non-digit literal never backtracks). -/
def splitDigits (l : Str) : Str × Str :=
  (l.takeWhile Char.isDigit, l.dropWhile Char.isDigit)

/-! ## Data model (src/src/types/git.ts) -/

inductive ChangeStatus
  | added | modified | deleted | renamed
deriving DecidableEq, Repr

/-- Model of `GitFileChange`.  `oldPath` is optional in the interface. -/
structure GitFileChange where
  path : Str
  status : ChangeStatus
  additions : Nat
  deletions : Nat
  oldPath : Option Str := none
deriving DecidableEq, Repr

/-- The `stats` object of a `GitCommit` (field order as constructed in
`parseGitStats`). -/
structure GitStatsRec where
  additions : Nat
  deletions : Nat
  files : Nat
deriving DecidableEq, Repr

/-- Model of `new Date(s)` applied to a string or to `undefined`: the
parse is external; the wrapper retains the raw input (`none` models the
`new Date(undefined)` call, which yields an Invalid Date). -/
structure JSDateStr where
  raw : Option Str
deriving DecidableEq, Repr

/-- Model of `GitCommit`.  The interface declares the four header fields as
`string`, but the destructuring in `parseGitLogEntry` can leave any of
them `undefined` at runtime, hence `Option Str`. -/
structure GitCommit where
  hash : Option Str
  author : Option Str
  date : JSDateStr
  message : Option Str
  stats : GitStatsRec
deriving DecidableEq, Repr

/-! ## LogParser (src/utils/gitParser.ts: parseGitStats, parseGitLogEntry) -/

/-- Capture groups of the summary-line regex
`(\d+) files? changed(?:, (\d+) insertions?\(\+\))?(?:, (\d+) deletions?\(-\))?`. -/
structure StatsGroups where
  g1 : Str
  g2 : Option Str
  g3 : Option Str
deriving DecidableEq, Repr

/-- The regex token `s?` (greedy; always safe to take since every
following literal starts with a different character). -/
def optChar (c : Char) (l : Str) : Str :=
  if startsWithCL [c] l then l.drop 1 else l

/-- The optional clause `(?:, (\d+) insertions?\(\+\))?`: returns the
captured digits (or `none` if the clause is absent) and the remainder of
the subject.  Backtracking is not needed: the digits are followed by a
space, and if the clause fails the subject is returned unchanged. -/
def tryInsertions (l : Str) : Option Str × Str :=
  match stripPrefixCL ", ".data l with
  | none => (none, l)
  | some r1 =>
    match splitDigits r1 with
    | (d, r2) =>
      if d = [] then (none, l)
      else
        match stripPrefixCL " insertion".data r2 with
        | none => (none, l)
        | some r3 =>
          match stripPrefixCL "(+)".data (optChar 's' r3) with
          | none => (none, l)
          | some r4 => (some d, r4)

/-- The optional clause `(?:, (\d+) deletions?\(-\))?`. -/
def tryDeletions (l : Str) : Option Str × Str :=
  match stripPrefixCL ", ".data l with
  | none => (none, l)
  | some r1 =>
    match splitDigits r1 with
    | (d, r2) =>
      if d = [] then (none, l)
      else
        match stripPrefixCL " deletion".data r2 with
        | none => (none, l)
        | some r3 =>
          match stripPrefixCL "(-)".data (optChar 's' r3) with
          | none => (none, l)
          | some r4 => (some d, r4)

/-- The two optional clauses after `files? changed`, producing the
capture groups (`d1` is the already-matched first group). -/
def statsAfterChanged (d1 : Str) (r4 : Str) : StatsGroups :=
  match tryInsertions r4 with
  | (g2, r5) =>
    match tryDeletions r5 with
    | (g3, _) => ⟨d1, g2, g3⟩

/-- One attempt of the summary regex at a fixed start position. -/
def tryStatsAt (l : Str) : Option StatsGroups :=
  match splitDigits l with
  | (d1, r1) =>
    if d1 = [] then none
    else
      match stripPrefixCL " file".data r1 with
      | none => none
      | some r2 =>
        match stripPrefixCL " changed".data (optChar 's' r2) with
        | none => none
        | some r4 => some (statsAfterChanged d1 r4)

/-- The unanchored regex search: first position where the summary
pattern matches (`String.prototype.match`). -/
def matchStatsFrom : Str → Option StatsGroups
  | [] => none
  | c :: cs =>
    match tryStatsAt (c :: cs) with
    | some g => some g
    | none => matchStatsFrom cs

/-- Model of `parseGitStats` (src/utils/gitParser.ts lines 18-33).  The argument
is `Option Str` because `parseGitLogEntry` can pass `undefined`; the JS
guard `if (!statsText)` also catches the empty string. -/
def parseGitStats (statsText : Option Str) : GitStatsRec :=
  match statsText with
  | none => ⟨0, 0, 0⟩
  | some t =>
    if t = [] then ⟨0, 0, 0⟩
    else
      let summary := (splitOnNL t).getLastD []
      match matchStatsFrom summary with
      | none => ⟨0, 0, 0⟩
      | some g =>
        { files := digitsToNat g.g1
          additions := digitsToNat (g.g2.getD "0".data)
          deletions := digitsToNat (g.g3.getD "0".data) }

/-- Model of `parseGitLogEntry` (src/utils/gitParser.ts lines 3-16).
`const [commitInfo, statsInfo] = logEntry.split('\n\n')` and
`const [hash, author, dateStr, message] = commitInfo.split('|')`:
destructuring past the end of the array yields `undefined` (`none`). -/
def parseGitLogEntry (logEntry : Str) : GitCommit :=
  let parts := splitOnDoubleNL logEntry
  let commitInfo := parts.headD []
  let statsInfo := parts.get? 1
  let fields := splitOnPred (fun c => c == '|') commitInfo
  { hash := fields.get? 0
    author := fields.get? 1
    date := ⟨fields.get? 2⟩
    message := fields.get? 3
    stats := parseGitStats statsInfo }

/-- The `|`-separated header fields of a log entry (what the two splits
of `parseGitLogEntry` see). -/
def headerFields (logEntry : Str) : List Str :=
  splitOnPred (fun c => c == '|') ((splitOnDoubleNL logEntry).headD [])

/-! ## StatusParser (src/utils/gitParser.ts: parseFileStatus, mapGitStatus) -/

/-- Model of `mapGitStatus` (src/utils/gitParser.ts lines 54-63). -/
def mapGitStatus (status : Str) : ChangeStatus :=
  if status = "A".data then .added
  else if status = "M".data then .modified
  else if status = "D".data then .deleted
  else if status = "R".data then .renamed
  else .modified

/-- Model of `s.split(/\s+/)` for an already-trimmed `s`: JS returns
`[""]` for the empty string, otherwise the maximal non-whitespace runs
(after `trim()` there are no leading or trailing separators, so the
regex split is exactly the whitespace-separated tokens). -/
def jsSplitWs (l : Str) : List Str :=
  if l = [] then [[]]
  else (splitOnPred isJsSpace l).filter (fun s => !s.isEmpty)

/-- Model of `parseFileStatus` (src/utils/gitParser.ts lines 35-52).  The
`oldPath` assignment happens only when the status token is exactly `R`
and at least two path tokens follow. -/
def parseFileStatus (statusLine : Str) : Option GitFileChange :=
  match jsSplitWs (trimCL statusLine) with
  | [] => none
  | status :: paths =>
    if status = [] ∨ paths = [] then none
    else
      some
        { path := paths.getLastD []
          status := mapGitStatus status
          additions := 0
          deletions := 0
          oldPath :=
            if status = "R".data ∧ 1 < paths.length then some (paths.headD [])
            else none }

/-! ## DiffParser (src/services/GitService.ts: parseDiff, lines 347-393) -/

structure DiffHunk where
  oldStart : Nat
  oldLines : Nat
  newStart : Nat
  newLines : Nat
  content : Str
deriving DecidableEq, Repr

structure GitDiff where
  path : Str
  additions : Nat
  deletions : Nat
  hunks : List DiffHunk
deriving DecidableEq, Repr

/-- The candidate parses of the regex fragment `,?(\d+)?`, in the
engine's greedy preference order: comma with digits, comma alone, no
comma.  (`\d+` never backtracks below its maximal run here because the
following literal always starts with a non-digit.) -/
def tryCommaNum (l : Str) : List (Option Str × Str) :=
  (match l with
   | c :: cs =>
     if c == ',' then
       match splitDigits cs with
       | (d, r) => if d = [] then [(none, cs)] else [(some d, r), (none, cs)]
     else []
   | [] => []) ++ [(none, l)]

/-- Pick the first candidate after which the literal `next` matches
(the regex engine's backtracking over `,?(\d+)?` followed by a literal). -/
def tryAfterNums (cands : List (Option Str × Str)) (next : Str) :
    Option (Option Str × Str) :=
  cands.findSome? (fun gr =>
    match stripPrefixCL next gr.2 with
    | some r => some (gr.1, r)
    | none => none)

/-- One attempt of the hunk-header regex
`@@ -(\d+),?(\d+)? \+(\d+),?(\d+)? @@` at a fixed start position.
Returns `(oldStart, oldLines, newStart, newLines)`; a missing count
group defaults to 0 (`parseInt(match[i], 10) || 0`). -/
def tryHunkAt (l : Str) : Option (Nat × Nat × Nat × Nat) :=
  match stripPrefixCL "@@ -".data l with
  | none => none
  | some r0 =>
    match splitDigits r0 with
    | (d1, r1) =>
      if d1 = [] then none
      else
        match tryAfterNums (tryCommaNum r1) " +".data with
        | none => none
        | some (g2, r2) =>
          match splitDigits r2 with
          | (d3, r3) =>
            if d3 = [] then none
            else
              match tryAfterNums (tryCommaNum r3) " @@".data with
              | none => none
              | some (g4, _) =>
                some (digitsToNat d1, (g2.map digitsToNat).getD 0,
                      digitsToNat d3, (g4.map digitsToNat).getD 0)

/-- The unanchored search of `line.match(hunkHeaderRegex)`. -/
def matchHunkFrom : Str → Option (Nat × Nat × Nat × Nat)
  | [] => none
  | c :: cs =>
    match tryHunkAt (c :: cs) with
    | some g => some g
    | none => matchHunkFrom cs

/-- The loop of `parseDiff` over the split lines, carrying the emitted
hunks, both counters and the open hunk.  On a line starting `@@` whose
header regex fails, the JS code pushes the open hunk but keeps the
(aliased) `currentHunk` reference; the value model keeps the current
hunk value, which agrees with the source on every field the theorems
below mention (the counters and the matched-header hunks). -/
def parseDiffLoop :
    List DiffHunk → Nat → Nat → Option DiffHunk → List Str →
    List DiffHunk × Nat × Nat
  | hunks, adds, dels, cur, [] => (hunks ++ cur.toList, adds, dels)
  | hunks, adds, dels, cur, l :: ls =>
    if startsWithCL "@@".data l then
      match matchHunkFrom l with
      | some (a, b, c, d) =>
        parseDiffLoop (hunks ++ cur.toList) adds dels
          (some ⟨a, b, c, d, l ++ ['\n']⟩) ls
      | none => parseDiffLoop (hunks ++ cur.toList) adds dels cur ls
    else
      match cur with
      | some h =>
        parseDiffLoop hunks
          (adds + (if startsWithCL "+".data l then 1 else 0))
          (dels + (if startsWithCL "-".data l then 1 else 0))
          (some { h with content := h.content ++ l ++ ['\n'] }) ls
      | none => parseDiffLoop hunks adds dels none ls

/-- Model of `GitService.parseDiff` (lines 347-393). -/
def parseDiff (diff : Str) (filePath : Str) : GitDiff :=
  let r := parseDiffLoop [] 0 0 none (splitOnNL diff)
  { path := filePath, additions := r.2.1, deletions := r.2.2, hunks := r.1 }

/-- Counting spec for `parseDiff`: a pair `(additions, deletions)`
accumulated over the lines with a single flag that records whether some
earlier line opened a hunk (started with `@@` and matched the header
regex).  A line is counted iff the flag is set, it does not start with
`@@`, and it starts with `+` resp. `-`. -/
def diffCountsSpec : Bool → List Str → Nat × Nat
  | _, [] => (0, 0)
  | inHunk, l :: ls =>
    if startsWithCL "@@".data l then
      diffCountsSpec (inHunk || (matchHunkFrom l).isSome) ls
    else if inHunk then
      match diffCountsSpec inHunk ls with
      | (a, d) =>
        ((if startsWithCL "+".data l then 1 else 0) + a,
         (if startsWithCL "-".data l then 1 else 0) + d)
    else diffCountsSpec inHunk ls

/-! ## BlameParser (src/services/GitService.ts: parseBlame, lines 395-420) -/

/-- A `GitBlame` record.  `date` is built by
`new Date(parseInt(line.substring(12), 10) * 1000)`: the model keeps
the epoch milliseconds, `none` for the Invalid Date produced when
`parseInt` returns `NaN`. -/
structure GitBlame where
  hash : Str
  author : Str
  date : Option Int
  line : Nat
  content : Str
deriving DecidableEq, Repr

/-- The digits step of `parseInt`: `none` models `NaN`. -/
def parseDigitsOpt (l : Str) : Option Nat :=
  match splitDigits l with
  | (d, _) => if d = [] then none else some (digitsToNat d)

/-- Model of JS `parseInt(s, 10)`: skip leading whitespace, optional
sign, then leading decimal digits; `none` models `NaN`. -/
def jsParseIntCL (l : Str) : Option Int :=
  match l.dropWhile isJsSpace with
  | [] => none
  | c :: cs =>
    if c == '-' then (parseDigitsOpt cs).map (fun n => -(n : Int))
    else if c == '+' then (parseDigitsOpt cs).map (fun n => (n : Int))
    else (parseDigitsOpt (c :: cs)).map (fun n => (n : Int))

/-- The mutable `current: Partial<GitBlame>` of `parseBlame`. -/
structure BlamePartial where
  author : Option Str := none
  date : Option (Option Int) := none
  hash : Option Str := none
deriving DecidableEq, Repr

/-- JS truthiness of a possibly-undefined string: `undefined` and `""`
are falsy. -/
def truthyStr : Option Str → Bool
  | none => false
  | some l => !l.isEmpty

/-- The loop of `parseBlame`.  On a tab line the record is emitted only
if `current.hash && current.author && current.date` is truthy; a Date
object is always truthy (even an Invalid Date), so only presence of the
`author-time` line matters for `date`.  The emitted line number is
`results.length + 1` (emission order); `current` is reset either way. -/
def parseBlameLoop (results : List GitBlame) (cur : BlamePartial) :
    List Str → List GitBlame
  | [] => results
  | l :: ls =>
    if startsWithCL "author ".data l then
      parseBlameLoop results { cur with author := some (l.drop 7) } ls
    else if startsWithCL "author-time ".data l then
      parseBlameLoop results
        { cur with date := some ((jsParseIntCL (l.drop 12)).map (fun n => n * 1000)) } ls
    else if startsWithCL "hash ".data l then
      parseBlameLoop results { cur with hash := some (l.drop 5) } ls
    else if startsWithCL ['\t'] l then
      let results' :=
        if truthyStr cur.hash && truthyStr cur.author && cur.date.isSome then
          results ++ [{ hash := cur.hash.getD []
                        author := cur.author.getD []
                        date := cur.date.getD none
                        line := results.length + 1
                        content := l.drop 1 }]
        else results
      parseBlameLoop results' { author := none, date := none, hash := none } ls
    else
      parseBlameLoop results cur ls

/-- Model of `GitService.parseBlame` (lines 395-420). -/
def parseBlame (blame : Str) : List GitBlame :=
  parseBlameLoop [] { author := none, date := none, hash := none } (splitOnNL blame)

/-! ## ImpactAnalyzer (src/services/CodeAnalysisService.ts) -/

inductive Severity
  | low | medium | high
deriving DecidableEq, Repr

structure SecurityIssue where
  severity : Severity
  description : Str
  location : Str
deriving DecidableEq, Repr

structure PerformanceImpact where
  score : Nat
  details : List Str
deriving DecidableEq, Repr

structure GitAnalysis where
  impactScore : Nat
  complexityScore : Nat
  securityIssues : List SecurityIssue
  performanceImpact : PerformanceImpact
deriving DecidableEq, Repr

/-- Model of `calculateImpactScore` (lines 47-51):
`Math.floor((lines * 0.3 + changes * 0.7) / 10)` where
`lines = content.split('\n').length` and
`changes = content.split(/[{}();]/).length`.  The counts are naturals,
so the float expression equals the exact rational
`(lines * 3 + changes * 7) / 100`, whose floor is natural division. -/
def calculateImpactScore (content : Str) : Nat :=
  let lines := (splitOnNL content).length
  let changes :=
    (splitOnPred
      (fun c => c == '{' || c == '}' || c == '(' || c == ')' || c == ';')
      content).length
  (lines * 3 + changes * 7) / 100

/-- Count of the global regex `/if|while|for|&&|\|\||case/g`: scan left
to right; at a match, skip past it (non-overlapping); otherwise advance
one character.  The alternatives start with distinct characters, so the
engine's alternation order collapses to this pattern match. -/
def countCtrl : Str → Nat
  | 'i' :: 'f' :: rest => 1 + countCtrl rest
  | 'w' :: 'h' :: 'i' :: 'l' :: 'e' :: rest => 1 + countCtrl rest
  | 'f' :: 'o' :: 'r' :: rest => 1 + countCtrl rest
  | '&' :: '&' :: rest => 1 + countCtrl rest
  | '|' :: '|' :: rest => 1 + countCtrl rest
  | 'c' :: 'a' :: 's' :: 'e' :: rest => 1 + countCtrl rest
  | _ :: cs => countCtrl cs
  | [] => 0

/-- Model of `(line.match(/\{/g) || []).length`. -/
def countOpenBraces (l : Str) : Nat := l.countP (fun c => c == '{')

/-- Model of `calculateComplexityScore` (lines 53-57):
`Math.floor((cc * 0.6 + nestingDepth * 0.4) * 5)` with
`nestingDepth = Math.max(...lines.map(countOpenBraces))`.  `split`
always yields a non-empty list and the counts are naturals, so the max
equals a fold of `max` from 0 and the float expression equals the exact
rational `(cc * 6 + depth * 4) * 5 / 10`, whose floor is natural
division. -/
def calculateComplexityScore (content : Str) : Nat :=
  let cyclomaticComplexity := countCtrl content
  let nestingDepth := ((splitOnNL content).map countOpenBraces).foldl max 0
  (cyclomaticComplexity * 6 + nestingDepth * 4) * 5 / 10

/-- Model of `/password|secret|key/i`: a case-insensitive literal alternation,
i.e. the lower-cased content contains one of the lower-cased words. -/
def hasCredentialWord (content : Str) : Bool :=
  let lc := toLowerCL content
  containsSub "password".data lc || containsSub "secret".data lc ||
    containsSub "key".data lc

/-- Model of `/"[^"]*"/`: a double quote, any non-quotes, a closing double
quote — i.e. a second `"` occurs after the first one. -/
def hasQuotedStr (content : Str) : Bool :=
  match afterFirst ['"'] content with
  | some rest => containsSub ['"'] rest
  | none => false

/-- Model of `analyzeSecurityIssues` (lines 59-88); the three pushes happen in
source order. -/
def analyzeSecurityIssues (content : Str) (file : Str) : List SecurityIssue :=
  (if containsSub "eval(".data content then
    [⟨.high, "Use of eval() can lead to code injection vulnerabilities".data, file⟩]
   else []) ++
  (if hasCredentialWord content && hasQuotedStr content then
    [⟨.high, "Possible hardcoded credentials detected".data, file⟩]
   else []) ++
  (if containsSub "innerHTML".data content then
    [⟨.medium, "Use of innerHTML can lead to XSS vulnerabilities".data, file⟩]
   else [])

/-- A regex `lit1.*lit2` (with `.` not matching a line terminator):
after the first occurrence of `lit1` in the line, `lit2` occurs. -/
def lineHasSeq (p1 p2 : Str) (l : Str) : Bool :=
  match afterFirst p1 l with
  | some rest => containsSub p2 rest
  | none => false

/-- Model of `/\.forEach.*\.map/`: since `.` does not match `\n`, the whole
match lives inside one newline-delimited segment. -/
def hasForEachMap (content : Str) : Bool :=
  (splitOnNL content).any (lineHasSeq ".forEach".data ".map".data)

/-- Model of `/document\.querySelector.*querySelector/`. -/
def hasDoubleQuery (content : Str) : Bool :=
  (splitOnNL content).any
    (lineHasSeq "document.querySelector".data "querySelector".data)

/-- Model of `/console\.(log|debug|info)/`. -/
def hasConsoleStmt (content : Str) : Bool :=
  containsSub "console.log".data content ||
    containsSub "console.debug".data content ||
    containsSub "console.info".data content

/-- Index of the last occurrence of a character. -/
def lastIdxOf (c : Char) (l : Str) : Option Nat :=
  match l.reverse.findIdx? (fun x => x == c) with
  | some k => some (l.length - 1 - k)
  | none => none

/-- Count of the global regex `/\[\s*\.\.\..*\]/g`: at a `[`, skip the
maximal whitespace run (`\s*` is greedy and whitespace never matches
the following `.` literal), require `...`, then `.*\]` greedily matches
up to the last `]` before the next newline; on failure the scan resumes
one character after the `[`.  The fuel argument starts at the string
length and strictly dominates every recursive call, so it never runs
out; it only makes the recursion structural. -/
def countSpreadAux : Nat → Str → Nat
  | 0, _ => 0
  | _, [] => 0
  | fuel + 1, c :: cs =>
    if c == '[' then
      let afterWs := cs.dropWhile isJsSpace
      if startsWithCL "...".data afterWs then
        let rest := afterWs.drop 3
        match lastIdxOf ']' (rest.takeWhile (fun x => !(x == '\n'))) with
        | some k => 1 + countSpreadAux fuel (rest.drop (k + 1))
        | none => countSpreadAux fuel cs
      else countSpreadAux fuel cs
    else countSpreadAux fuel cs

def countSpread (content : Str) : Nat := countSpreadAux content.length content

/-- Model of `analyzePerformance` (lines 90-112); pushes in source order. -/
def analyzePerformance (content : Str) : List Str :=
  (if hasForEachMap content then
    ["Nested array operations detected - consider combining operations".data]
   else []) ++
  (if hasDoubleQuery content then
    ["Multiple DOM queries - consider caching selectors".data]
   else []) ++
  (if hasConsoleStmt content then
    ["Console statements found - remove in production".data]
   else []) ++
  (if 2 < countSpread content then
    ["Multiple spread operations detected - may impact performance".data]
   else [])

/-- One iteration of the `for (const file of files)` loop of
`analyzeFiles` (lines 16-37).  The input pairs a file path with the
result of the collaborator's `readFile`: `none` models a read failure,
which the `catch` turns into a logged skip. -/
def analyzeStep (acc : GitAnalysis) (file : Str × Option Str) : GitAnalysis :=
  match file.2 with
  | none => acc
  | some content =>
    { impactScore := acc.impactScore + calculateImpactScore content
      complexityScore := acc.complexityScore + calculateComplexityScore content
      securityIssues := acc.securityIssues ++ analyzeSecurityIssues content file.1
      performanceImpact :=
        { score := acc.performanceImpact.score + (analyzePerformance content).length
          details := acc.performanceImpact.details ++ analyzePerformance content } }

/-- Model of `CodeAnalysisService.analyzeFiles` (lines 5-45): accumulate over
all files, then clamp the three numeric scores with `Math.min(100, ·)`. -/
def analyzeFiles (files : List (Str × Option Str)) : GitAnalysis :=
  let a := files.foldl analyzeStep ⟨0, 0, [], ⟨0, []⟩⟩
  { a with
      impactScore := min 100 a.impactScore
      complexityScore := min 100 a.complexityScore
      performanceImpact :=
        { a.performanceImpact with score := min 100 a.performanceImpact.score } }

/-- Per-file impact contribution (0 for an unreadable file). -/
def impContrib (f : Str × Option Str) : Nat :=
  match f.2 with
  | some c => calculateImpactScore c
  | none => 0

/-- Per-file complexity contribution. -/
def cplxContrib (f : Str × Option Str) : Nat :=
  match f.2 with
  | some c => calculateComplexityScore c
  | none => 0

/-- Per-file performance-score contribution. -/
def perfContrib (f : Str × Option Str) : Nat :=
  match f.2 with
  | some c => (analyzePerformance c).length
  | none => 0

/-! ## MessageComposer (src/services/CommitMessageService.ts) -/

inductive StyleType
  | conventional | gitmoji | detailed | simple
deriving DecidableEq, Repr

/-- Model of `CommitMessageStyle` (src/types/git.ts). -/
structure CommitMessageStyle where
  type : StyleType
  includeScope : Bool
  includeFooter : Bool
  maxLength : Nat
deriving DecidableEq, Repr

/-- Insertion-order deduplication: the JS `Set` keeps first
occurrences, and `Array.from` returns them in insertion order. -/
def dedupAux (seen : List Str) : List Str → List Str
  | [] => []
  | x :: xs =>
    if seen.contains x then dedupAux seen xs
    else x :: dedupAux (x :: seen) xs

/-- Model of `determineScope` (lines 22-29). -/
def determineScope (changes : List GitFileChange) : Str :=
  let dirs := changes.map (fun change =>
    let parts := splitOnPred (fun c => c == '/') change.path
    if 1 < parts.length then parts.headD [] else "root".data)
  let uniqueDirs := dedupAux [] dirs
  if uniqueDirs.length = 1 then uniqueDirs.headD [] else "multiple".data

/-- Model of `path.match(/test|spec|fix/i)`. -/
def matchesTestSpecFix (p : Str) : Bool :=
  let lp := toLowerCL p
  containsSub "test".data lp || containsSub "spec".data lp ||
    containsSub "fix".data lp

/-- Model of `determineChangeType` (lines 31-40). -/
def determineChangeType (changes : List GitFileChange) : Str :=
  let hasNewFeature := changes.any (fun c => c.status == ChangeStatus.added)
  let hasFix := changes.any (fun c =>
    c.status == ChangeStatus.modified && matchesTestSpecFix c.path)
  let hasRefactor := changes.any (fun c =>
    c.status == ChangeStatus.modified && !matchesTestSpecFix c.path)
  if hasNewFeature then "feat".data
  else if hasFix then "fix".data
  else if hasRefactor then "refactor".data
  else "chore".data

/-- Model of `getActionWord` (lines 98-106). -/
def getActionWord : ChangeStatus → Str
  | .added => "Add".data
  | .modified => "Update".data
  | .deleted => "Remove".data
  | .renamed => "Rename".data

/-- Model of `filename.replace(/\.[^/.]+$/, '')`: strip a final `.`-extension
consisting of one or more characters none of which is `.` or `/`. -/
def stripExtension (l : Str) : Str :=
  let rl := l.reverse
  let ext := rl.takeWhile (fun c => !(c == '.') && !(c == '/'))
  match rl.drop ext.length with
  | '.' :: restRev => if ext.isEmpty then l else restRev.reverse
  | _ => l

/-- Model of `getComponent` (lines 108-112). -/
def getComponent (path : Str) : Str :=
  let parts := splitOnPred (fun c => c == '/') path
  stripExtension (parts.getLastD [])

/-- The string interpolation of a `GitFileChange.status` value. -/
def statusStr : ChangeStatus → Str
  | .added => "added".data
  | .modified => "modified".data
  | .deleted => "deleted".data
  | .renamed => "renamed".data

/-- Model of `generateDescription` (lines 42-48) for a non-empty change list
with head `mainChange`. -/
def generateDescription (changes : List GitFileChange)
    (mainChange : GitFileChange) : Str :=
  getActionWord mainChange.status ++ [' '] ++ getComponent mainChange.path ++
    (if 1 < changes.length then " and related files".data else [])

/-- The greedy line-appending loop of `truncateMessage` (lines 132-138). -/
def truncLoop (result : Str) (maxLength : Nat) : List Str → Str
  | [] => result
  | l :: ls =>
    if maxLength - 3 < result.length + l.length + 1 then result ++ "\n...".data
    else truncLoop (result ++ '\n' :: l) maxLength ls

/-- Model of `truncateMessage` (lines 124-141).  `maxLength` is a natural here;
the JS expressions `maxLength - 3` can go negative only when
`maxLength < 3`, and there `substring(0, negative)` clamps to 0 — the
same as truncated `Nat` subtraction — while the loop guard compares a
value that is always ≥ 1 against it, so the `Nat` guard agrees with the
JS guard as well. -/
def truncateMessage (message : Str) (maxLength : Nat) : Str :=
  if message.length ≤ maxLength then message
  else
    let lines := splitOnNL message
    let l0 := lines.headD []
    if maxLength < l0.length then l0.take (maxLength - 3) ++ "...".data
    else truncLoop l0 maxLength lines.tail

/-- Model of `generateConventionalMessage` (lines 50-58). -/
def generateConventionalMessage (ty scope description : Str)
    (style : CommitMessageStyle) : Str :=
  let message :=
    ty ++ (if style.includeScope then '(' :: scope ++ [')'] else []) ++
      ": ".data ++ description
  let message :=
    if style.includeFooter && decide (message.length + 20 < style.maxLength) then
      message ++ "\n\nRelated components: ".data ++ scope
    else message
  truncateMessage message style.maxLength

/-- Model of `getEmojiForType` (lines 114-122). -/
def getEmojiForType (ty : Str) : Str :=
  if ty = "feat".data then "✨".data
  else if ty = "fix".data then "🐛".data
  else if ty = "refactor".data then "♻️".data
  else if ty = "chore".data then "🔧".data
  else "📝".data

/-- Model of `generateGitmojiMessage` (lines 60-73). -/
def generateGitmojiMessage (ty scope description : Str)
    (style : CommitMessageStyle) : Str :=
  let message := getEmojiForType ty ++ [' '] ++ description
  let message :=
    if style.includeScope then '[' :: scope ++ "] ".data ++ message else message
  let message :=
    if style.includeFooter && decide (message.length + 20 < style.maxLength) then
      message ++ "\n\nType: ".data ++ ty
    else message
  truncateMessage message style.maxLength

/-- The bullet loop of `generateDetailedMessage` (lines 78-85). -/
def detailedLoop (message : Str) (maxLength : Nat) :
    List GitFileChange → Str
  | [] => message
  | change :: rest =>
    let line := "\n- ".data ++ statusStr change.status ++ ": ".data ++ change.path
    if maxLength < message.length + line.length then
      message ++ "\n- ... and more changes".data
    else detailedLoop (message ++ line) maxLength rest

/-- Model of `generateDetailedMessage` (lines 75-92). -/
def generateDetailedMessage (ty scope description : Str)
    (changes : List GitFileChange) (style : CommitMessageStyle) : Str :=
  let message :=
    ty ++ '(' :: scope ++ "): ".data ++ description ++ "\n\nChanges:".data
  let message := detailedLoop message style.maxLength changes
  let message :=
    if style.includeFooter then message ++ "\n\nScope: ".data ++ scope
    else message
  truncateMessage message style.maxLength

/-- Model of `generateSimpleMessage` (lines 94-96). -/
def generateSimpleMessage (description : Str)
    (style : CommitMessageStyle) : Str :=
  truncateMessage description style.maxLength

/-- Model of `CommitMessageService.generateMessage` (lines 4-20).  On an empty
change list the JS code throws (`changes[0].status` on `undefined`),
modelled by `none`. -/
def generateMessage (changes : List GitFileChange)
    (style : CommitMessageStyle) : Option Str :=
  match changes with
  | [] => none
  | mainChange :: _ =>
    let scope := determineScope changes
    let ty := determineChangeType changes
    let description := generateDescription changes mainChange
    some (match style.type with
      | .conventional => generateConventionalMessage ty scope description style
      | .gitmoji => generateGitmojiMessage ty scope description style
      | .detailed => generateDetailedMessage ty scope description changes style
      | .simple => generateSimpleMessage description style)

/-! ## Input-shape definitions used by the theorem statements -/

/-- The property that a string contains no newline (so it is a single
line of a line-split text). -/
abbrev noNL (l : Str) : Prop := ∀ c ∈ l, (c == '\n') = false

/-- The property that every character of a string is a decimal digit. -/
abbrev allDigits (l : Str) : Prop := ∀ c ∈ l, Char.isDigit c = true

/-- A two-block porcelain blame text: each block carries an `author `,
an `author-time ` and a `hash ` metadata line and is terminated by one
tab-prefixed content line. -/
def mkBlameText (a1 t1 h1 c1 a2 t2 h2 c2 : Str) : Str :=
  ("author ".data ++ a1) ++ '\n' ::
  (("author-time ".data ++ t1) ++ '\n' ::
  (("hash ".data ++ h1) ++ '\n' ::
  (('\t' :: c1) ++ '\n' ::
  (("author ".data ++ a2) ++ '\n' ::
  (("author-time ".data ++ t2) ++ '\n' ::
  (("hash ".data ++ h2) ++ '\n' :: ('\t' :: c2)))))))

/-- A full summary line `N files changed, A insertions(+), D deletions(-)`. -/
def statsLineFull (sN sA sD : Str) : Str :=
  sN ++ (" files changed, ".data ++
    (sA ++ (" insertions(+), ".data ++ (sD ++ " deletions(-)".data))))

/-- A summary line with the deletions clause omitted. -/
def statsLineIns (sN sA : Str) : Str :=
  sN ++ (" files changed, ".data ++ (sA ++ " insertions(+)".data))

/-- A summary line with the insertions clause omitted. -/
def statsLineDel (sN sD : Str) : Str :=
  sN ++ (" files changed, ".data ++ (sD ++ " deletions(-)".data))

/-- A summary line with both optional clauses omitted. -/
def statsLineBare (sN : Str) : Str := sN ++ " files changed".data

/-! ## Helper lemmas -/

theorem startsWithCL_append_self (p s : Str) : startsWithCL p (p ++ s) = true := by
  induction p with
  | nil => rfl
  | cons a p ih => simp [startsWithCL, ih]

theorem stripPrefixCL_append_self (p s : Str) :
    stripPrefixCL p (p ++ s) = some s := by
  induction p with
  | nil => rfl
  | cons a p ih => simp [stripPrefixCL, ih]

theorem splitOnPred_ne_nil (p : Char → Bool) (l : Str) :
    splitOnPred p l ≠ [] := by
  cases l with
  | nil => simp [splitOnPred]
  | cons c cs =>
    by_cases h : p c = true
    · simp [splitOnPred, h]
    · simp only [splitOnPred, h]
      cases splitOnPred p cs <;> simp

theorem splitOnPred_append_sep (p : Char → Bool) (l rest : Str)
    (hl : ∀ c ∈ l, p c = false) (c0 : Char) (hc : p c0 = true) :
    splitOnPred p (l ++ c0 :: rest) = l :: splitOnPred p rest := by
  induction l with
  | nil => simp [splitOnPred, hc]
  | cons a l ih =>
    have ha : p a = false := hl a (by simp)
    have ih' := ih (fun c hcm => hl c (by simp [hcm]))
    simp [splitOnPred, ha, ih']

theorem splitOnPred_no_sep (p : Char → Bool) (l : Str)
    (hl : ∀ c ∈ l, p c = false) : splitOnPred p l = [l] := by
  induction l with
  | nil => rfl
  | cons a l ih =>
    have ha : p a = false := hl a (by simp)
    have ih' := ih (fun c hcm => hl c (by simp [hcm]))
    simp [splitOnPred, ha, ih']

theorem splitOnNL_append (l rest : Str) (h : noNL l) :
    splitOnNL (l ++ '\n' :: rest) = l :: splitOnNL rest :=
  splitOnPred_append_sep _ l rest h '\n' (by decide)

theorem splitOnNL_single (l : Str) (h : noNL l) : splitOnNL l = [l] :=
  splitOnPred_no_sep _ l h

theorem noNL_append {a b : Str} (ha : noNL a) (hb : noNL b) : noNL (a ++ b) := by
  intro c hc
  rcases List.mem_append.mp hc with h | h
  · exact ha c h
  · exact hb c h

theorem noNL_cons {c : Char} {l : Str} (hc : (c == '\n') = false)
    (hl : noNL l) : noNL (c :: l) := by
  intro x hx
  rcases List.mem_cons.mp hx with rfl | h
  · exact hc
  · exact hl x h

theorem takeWhile_append_cons (q : Char → Bool) (l : Str) (c : Char)
    (rest : Str) (hl : ∀ x ∈ l, q x = true) (hc : q c = false) :
    (l ++ c :: rest).takeWhile q = l := by
  induction l with
  | nil => simp [List.takeWhile, hc]
  | cons a l ih =>
    have ha : q a = true := hl a (by simp)
    have ih' := ih (fun x hx => hl x (by simp [hx]))
    simp [List.takeWhile, ha, ih']

theorem dropWhile_append_cons (q : Char → Bool) (l : Str) (c : Char)
    (rest : Str) (hl : ∀ x ∈ l, q x = true) (hc : q c = false) :
    (l ++ c :: rest).dropWhile q = c :: rest := by
  induction l with
  | nil => simp [List.dropWhile, hc]
  | cons a l ih =>
    have ha : q a = true := hl a (by simp)
    have ih' := ih (fun x hx => hl x (by simp [hx]))
    simp [List.dropWhile, ha, ih']

theorem splitDigits_append_cons (l : Str) (c : Char) (rest : Str)
    (hl : allDigits l) (hc : Char.isDigit c = false) :
    splitDigits (l ++ c :: rest) = (l, c :: rest) := by
  unfold splitDigits
  rw [takeWhile_append_cons _ _ _ _ hl hc, dropWhile_append_cons _ _ _ _ hl hc]

theorem foldl_analyzeStep_scores (files : List (Str × Option Str)) :
    ∀ acc : GitAnalysis,
      (files.foldl analyzeStep acc).impactScore
          = acc.impactScore + (files.map impContrib).sum
      ∧ (files.foldl analyzeStep acc).complexityScore
          = acc.complexityScore + (files.map cplxContrib).sum
      ∧ (files.foldl analyzeStep acc).performanceImpact.score
          = acc.performanceImpact.score + (files.map perfContrib).sum := by
  induction files with
  | nil => intro acc; simp
  | cons f fs ih =>
    intro acc
    obtain ⟨h1, h2, h3⟩ := ih (analyzeStep acc f)
    refine ⟨?_, ?_, ?_⟩ <;>
      rw [List.foldl_cons, List.map_cons, List.sum_cons]
    · rw [h1]
      cases hf : f.2 <;> simp [analyzeStep, impContrib, hf, Nat.add_assoc]
    · rw [h2]
      cases hf : f.2 <;> simp [analyzeStep, cplxContrib, hf, Nat.add_assoc]
    · rw [h3]
      cases hf : f.2 <;> simp [analyzeStep, perfContrib, hf, Nat.add_assoc]

theorem analyzeFiles_scores_eq (l : List (Str × Option Str)) :
    (analyzeFiles l).impactScore = min 100 (l.map impContrib).sum
    ∧ (analyzeFiles l).complexityScore = min 100 (l.map cplxContrib).sum
    ∧ (analyzeFiles l).performanceImpact.score = min 100 (l.map perfContrib).sum := by
  obtain ⟨h1, h2, h3⟩ := foldl_analyzeStep_scores l ⟨0, 0, [], ⟨0, []⟩⟩
  refine ⟨?_, ?_, ?_⟩ <;> simp [analyzeFiles, h1, h2, h3]

theorem truncLoop_length (ls : List Str) :
    ∀ (r : Str) (n : Nat), r.length ≤ n → (truncLoop r n ls).length ≤ n + 4 := by
  induction ls with
  | nil =>
    intro r n h
    simpa [truncLoop] using Nat.le_trans h (by omega)
  | cons l ls ih =>
    intro r n h
    unfold truncLoop
    split_ifs with hc
    · simp only [List.length_append, List.length_cons, List.length_nil]
      omega
    · refine ih _ n ?_
      simp only [List.length_append, List.length_cons, not_lt] at hc ⊢
      omega

theorem mapGitStatus_renamed_iff (s : Str) :
    mapGitStatus s = ChangeStatus.renamed ↔ s = "R".data := by
  unfold mapGitStatus
  split_ifs with h1 h2 h3 h4
  · subst h1; exact iff_of_false (by decide) (by decide)
  · subst h2; exact iff_of_false (by decide) (by decide)
  · subst h3; exact iff_of_false (by decide) (by decide)
  · subst h4; exact iff_of_true rfl rfl
  · exact iff_of_false (by decide) h4

theorem parseDiffLoop_counts (ls : List Str) :
    ∀ (hunks : List DiffHunk) (adds dels : Nat) (cur : Option DiffHunk),
      (parseDiffLoop hunks adds dels cur ls).2.1
          = adds + (diffCountsSpec cur.isSome ls).1
      ∧ (parseDiffLoop hunks adds dels cur ls).2.2
          = dels + (diffCountsSpec cur.isSome ls).2 := by
  induction ls with
  | nil => intro hunks adds dels cur; simp [parseDiffLoop, diffCountsSpec]
  | cons l ls ih =>
    intro hunks adds dels cur
    by_cases hat : startsWithCL "@@".data l = true
    · cases hm : matchHunkFrom l with
      | some g =>
        obtain ⟨a, b, c, d⟩ := g
        have hrec := ih (hunks ++ cur.toList) adds dels (some ⟨a, b, c, d, l ++ ['\n']⟩)
        simp only [parseDiffLoop, diffCountsSpec, hat, hm, if_true, Option.isSome_some,
          Bool.or_true] at hrec ⊢
        exact hrec
      | none =>
        have hrec := ih (hunks ++ cur.toList) adds dels cur
        simp only [parseDiffLoop, diffCountsSpec, hat, hm, if_true, Option.isSome_none,
          Bool.or_false] at hrec ⊢
        exact hrec
    · cases cur with
      | some h =>
        have hrec := ih hunks
          (adds + (if startsWithCL "+".data l then 1 else 0))
          (dels + (if startsWithCL "-".data l then 1 else 0))
          (some { h with content := h.content ++ l ++ ['\n'] })
        simp only [parseDiffLoop, diffCountsSpec, hat, Option.isSome_some,
          if_false, Bool.false_eq_true, if_true] at hrec ⊢
        cases hd : diffCountsSpec true ls with
        | mk a d =>
          obtain ⟨e1, e2⟩ := hrec
          rw [hd] at e1 e2
          constructor
          · rw [e1]; omega
          · rw [e2]; omega
      | none =>
        have hrec := ih hunks adds dels none
        simp only [parseDiffLoop, diffCountsSpec, hat, Option.isSome_none] at hrec ⊢
        exact hrec

/-! ## Claim theorems -/

/-- C1: for every list of analyzed file contents (paired with their
paths; `none` models an unreadable file), the `Analysis` returned by
`analyzeFiles` has `impactScore`, `complexityScore` and
`performanceImpact.score` each in `[0, 100]`.  Every per-file
contribution is a count-valued natural, so the accumulated scores are
non-negative, and the final `Math.min(100, ·)` clamp bounds them by
100. -/
theorem analyzeFiles_scores_in_range (files : List (Str × Option Str)) :
    (0 ≤ (analyzeFiles files).impactScore
      ∧ (analyzeFiles files).impactScore ≤ 100)
    ∧ (0 ≤ (analyzeFiles files).complexityScore
      ∧ (analyzeFiles files).complexityScore ≤ 100)
    ∧ (0 ≤ (analyzeFiles files).performanceImpact.score
      ∧ (analyzeFiles files).performanceImpact.score ≤ 100) :=
  ⟨⟨Nat.zero_le _, Nat.min_le_left _ _⟩,
   ⟨Nat.zero_le _, Nat.min_le_left _ _⟩,
   ⟨Nat.zero_le _, Nat.min_le_left _ _⟩⟩

/-- C5 (counterexample): `analyzeFiles` is *not* invariant under
permutation of its input: two files that each raise a security issue
produce the issue records in input order, so swapping the files changes
the `securityIssues` list of the final `Analysis`. -/
theorem analyzeFiles_not_order_invariant :
    analyzeFiles [("a".data, some "eval(".data), ("b".data, some "eval(".data)]
      ≠ analyzeFiles [("b".data, some "eval(".data), ("a".data, some "eval(".data)] := by
  decide

/-- C5 (amended): the numeric combination of `analyzeFiles` is a
commutative and associative sum, so any permutation of the file list
yields the same `impactScore`, `complexityScore` and
`performanceImpact.score` after the final clamp (the `securityIssues`
and `performanceImpact.details` lists, however, follow input order). -/
theorem analyzeFiles_scores_perm_invariant (l1 l2 : List (Str × Option Str))
    (h : l1.Perm l2) :
    (analyzeFiles l1).impactScore = (analyzeFiles l2).impactScore
    ∧ (analyzeFiles l1).complexityScore = (analyzeFiles l2).complexityScore
    ∧ (analyzeFiles l1).performanceImpact.score
        = (analyzeFiles l2).performanceImpact.score := by
  obtain ⟨a1, a2, a3⟩ := analyzeFiles_scores_eq l1
  obtain ⟨b1, b2, b3⟩ := analyzeFiles_scores_eq l2
  refine ⟨?_, ?_, ?_⟩
  · rw [a1, b1, (h.map impContrib).sum_eq]
  · rw [a2, b2, (h.map cplxContrib).sum_eq]
  · rw [a3, b3, (h.map perfContrib).sum_eq]

/-- Witness for C5 (amended) at a concrete two-element permutation. -/
theorem analyzeFiles_scores_perm_invariant_witness :
    (analyzeFiles [("a".data, some "eval(".data), ("b".data, some "if(x){}".data)]).impactScore
      = (analyzeFiles [("b".data, some "if(x){}".data), ("a".data, some "eval(".data)]).impactScore := by
  exact (analyzeFiles_scores_perm_invariant _ _ (List.Perm.swap _ _ [])).1

/-- C6: on the diff text `"@@ -1,3 +1,4 @@\n line\n+added\n-removed\n"`,
`parseDiff` yields exactly one hunk with `oldStart = 1`, `oldLines = 3`,
`newStart = 1`, `newLines = 4`, and aggregate `additions = 1`,
`deletions = 1`. -/
theorem parseDiff_single_hunk_example :
    ((parseDiff "@@ -1,3 +1,4 @@\n line\n+added\n-removed\n".data "f".data).hunks.map
        (fun h => (h.oldStart, h.oldLines, h.newStart, h.newLines)) = [(1, 3, 1, 4)])
    ∧ (parseDiff "@@ -1,3 +1,4 @@\n line\n+added\n-removed\n".data "f".data).additions = 1
    ∧ (parseDiff "@@ -1,3 +1,4 @@\n line\n+added\n-removed\n".data "f".data).deletions = 1 := by
  decide

/-- C4 (counterexample): a `---` or `+++` marker line occurring *after*
a hunk header is counted by `parseDiff` (as a deletion resp. addition):
on a diff whose only body lines are the two markers, the counters are 1
and 1 rather than 0 and 0. -/
theorem parseDiff_markers_counted_in_hunk :
    (parseDiff "@@ -1,1 +1,1 @@\n--- a/f\n+++ b/f".data "f".data).additions = 1
    ∧ (parseDiff "@@ -1,1 +1,1 @@\n--- a/f\n+++ b/f".data "f".data).deletions = 1
    ∧ splitOnNL "@@ -1,1 +1,1 @@\n--- a/f\n+++ b/f".data
        = ["@@ -1,1 +1,1 @@".data, "--- a/f".data, "+++ b/f".data] := by
  decide

/-- C4 (amended): `parseDiff` counts exactly the lines that begin with
`+` resp. `-`, do not begin with `@@`, and occur after some earlier
line that opened a hunk (started with `@@` and matched the header
regex).  In particular `@@` lines are never counted and `+++`/`---`
lines before the first hunk header are never counted, but marker lines
inside a hunk body are. -/
theorem parseDiff_counts_characterization (diff filePath : Str) :
    (parseDiff diff filePath).additions
        = (diffCountsSpec false (splitOnNL diff)).1
    ∧ (parseDiff diff filePath).deletions
        = (diffCountsSpec false (splitOnNL diff)).2 := by
  obtain ⟨h1, h2⟩ := parseDiffLoop_counts (splitOnNL diff) [] 0 0 none
  exact ⟨by simpa using h1, by simpa using h2⟩

/-- C9: composing a message for the single change
`{path: "src/a.ts", status: "added", additions: 0, deletions: 0}` with
style `{type: "conventional", includeScope: true, includeFooter: false,
maxLength: 72}` returns a string starting with `"feat(src): Add a"`. -/
theorem generateMessage_conventional_example :
    ∃ m, generateMessage [⟨"src/a.ts".data, .added, 0, 0, none⟩]
          ⟨.conventional, true, false, 72⟩ = some m
      ∧ startsWithCL "feat(src): Add a".data m = true := by
  refine ⟨"feat(src): Add a".data, ?_, ?_⟩ <;> decide

/-- C10: `maxLength` is a soft cap: `truncateMessage` always returns at
most `maxLength + 4` characters (the 4 extra come from the appended
`"\n..."` ellipsis line), and on the multi-line input
`"abcde\nxxxxx"` with `maxLength = 5` — whose first line does not
exceed `maxLength` — the result is strictly longer than `maxLength`. -/
theorem truncateMessage_soft_cap :
    (∀ (m : Str) (n : Nat), (truncateMessage m n).length ≤ n + 4)
    ∧ (1 < (splitOnNL "abcde\nxxxxx".data).length
      ∧ ((splitOnNL "abcde\nxxxxx".data).headD []).length ≤ 5
      ∧ 5 < (truncateMessage "abcde\nxxxxx".data 5).length) := by
  constructor
  · intro m n
    unfold truncateMessage
    dsimp only
    split_ifs with h1 h2
    · omega
    · simp only [List.length_append, List.length_take, List.length_cons,
        List.length_nil]
      omega
    · exact truncLoop_length _ _ n (by omega)
  · decide

/-- C2 (counterexample): on a header with fewer than four `|`-separated
fields, the missing fields of the returned commit are `undefined`
(modelled `none`), not the empty string: for `"abc|def"` the `message`
field is `none` and in particular not `some ""`. -/
theorem parseGitLogEntry_empty_string_cex :
    (parseGitLogEntry "abc|def".data).author = some "def".data
    ∧ (parseGitLogEntry "abc|def".data).message = none
    ∧ ¬((parseGitLogEntry "abc|def".data).message = some []) := by
  decide

/-- C2 (amended): for every commit-log block whose header line has
fewer than four `|`-separated fields, `parseGitLogEntry` still returns
a `Commit` record (it never raises: the function is total), but each
missing header field is `undefined` (modelled `none`) rather than the
empty string; the `hash` field, being the first element of the split,
is always present. -/
theorem parseGitLogEntry_missing_fields_undefined (entry : Str)
    (h : (headerFields entry).length < 4) :
    (parseGitLogEntry entry).message = none
    ∧ ((headerFields entry).length < 3 → (parseGitLogEntry entry).date = ⟨none⟩)
    ∧ ((headerFields entry).length < 2 → (parseGitLogEntry entry).author = none)
    ∧ (parseGitLogEntry entry).hash.isSome = true := by
  refine ⟨?_, ?_, ?_, ?_⟩
  · show (headerFields entry).get? 3 = none
    exact List.get?_eq_none.mpr (by omega)
  · intro h3
    show JSDateStr.mk ((headerFields entry).get? 2) = ⟨none⟩
    rw [List.get?_eq_none.mpr (by omega)]
  · intro h2
    show (headerFields entry).get? 1 = none
    exact List.get?_eq_none.mpr (by omega)
  · show ((headerFields entry).get? 0).isSome = true
    cases hh : headerFields entry with
    | nil => exact absurd hh (splitOnPred_ne_nil _ _)
    | cons a t => simp

/-- Witness for C2 (amended) at the two-field header `"abc|def"`. -/
theorem parseGitLogEntry_missing_fields_undefined_witness :
    (parseGitLogEntry "abc|def".data).message = none
    ∧ (parseGitLogEntry "abc|def".data).date = ⟨none⟩
    ∧ (parseGitLogEntry "abc|def".data).hash.isSome = true := by
  obtain ⟨h1, h2, h3, h4⟩ :=
    parseGitLogEntry_missing_fields_undefined "abc|def".data (by decide)
  exact ⟨h1, h2 (by decide), h4⟩

/-- C3 (counterexample): the status line `"R onlyfile"` parses to a
non-null `FileChange` with `status = renamed` but *no* `oldPath` (the
assignment requires at least two path tokens), refuting the claimed
equivalence `oldPath present ⟺ status = renamed`. -/
theorem parseFileStatus_rename_single_token_cex :
    (parseFileStatus "R onlyfile".data).map (fun c => (c.status, c.oldPath))
      = some (ChangeStatus.renamed, none) := by
  decide

/-- C3 (amended): for every status line on which `parseFileStatus`
returns a `FileChange`, `oldPath` is present iff the status is
`renamed` *and* the line has at least three whitespace-separated tokens
(the `R` code plus two paths).  In particular `oldPath` present implies
`status = renamed`, but a renamed line with a single path token has no
`oldPath`. -/
theorem parseFileStatus_oldPath_characterization (l : Str) (c : GitFileChange)
    (h : parseFileStatus l = some c) :
    c.oldPath.isSome = true ↔
      (c.status = ChangeStatus.renamed ∧ 3 ≤ (jsSplitWs (trimCL l)).length) := by
  unfold parseFileStatus at h
  cases htoks : jsSplitWs (trimCL l) with
  | nil => rw [htoks] at h; exact absurd h (by simp)
  | cons status paths =>
    rw [htoks] at h
    dsimp only at h
    by_cases hs : status = [] ∨ paths = []
    · rw [if_pos hs] at h; exact absurd h (by simp)
    · rw [if_neg hs] at h
      have hc := Option.some.inj h
      subst hc
      by_cases hR : status = "R".data ∧ 1 < paths.length
      · constructor
        · intro _
          refine ⟨(mapGitStatus_renamed_iff status).mpr hR.1, ?_⟩
          have := hR.2
          simp only [List.length_cons]
          omega
        · intro _
          simp [hR]
      · constructor
        · intro hi
          rw [if_neg hR] at hi
          exact absurd hi (by simp)
        · intro hrhs
          exfalso
          apply hR
          refine ⟨(mapGitStatus_renamed_iff status).mp hrhs.1, ?_⟩
          have := hrhs.2
          simp only [List.length_cons] at this
          omega

/-- Witness for C3 (amended) at the two-path rename line `"R a b"`. -/
theorem parseFileStatus_oldPath_characterization_witness :
    ((⟨"b".data, ChangeStatus.renamed, 0, 0, some "a".data⟩ : GitFileChange).oldPath.isSome = true)
      ↔ ((⟨"b".data, ChangeStatus.renamed, 0, 0, some "a".data⟩ : GitFileChange).status
            = ChangeStatus.renamed
          ∧ 3 ≤ (jsSplitWs (trimCL "R a b".data)).length) :=
  parseFileStatus_oldPath_characterization "R a b".data _ (by decide)

/-- C7: on a two-block porcelain blame text whose blocks each carry
complete (non-empty) `author`, `author-time` and `hash` metadata lines
terminated by one tab-prefixed content line, `parseBlame` yields
exactly two `BlameLine` records, with line numbers 1 then 2 assigned by
emission order and fields taken from the respective block. -/
theorem parseBlame_two_block_emission
    (a1 t1 h1 c1 a2 t2 h2 c2 : Str)
    (na1 : noNL a1) (nt1 : noNL t1) (nh1 : noNL h1) (nc1 : noNL c1)
    (na2 : noNL a2) (nt2 : noNL t2) (nh2 : noNL h2) (nc2 : noNL c2)
    (ha1 : a1 ≠ []) (hh1 : h1 ≠ []) (ha2 : a2 ≠ []) (hh2 : h2 ≠ []) :
    parseBlame (mkBlameText a1 t1 h1 c1 a2 t2 h2 c2)
      = [⟨h1, a1, (jsParseIntCL t1).map (fun n => n * 1000), 1, c1⟩,
         ⟨h2, a2, (jsParseIntCL t2).map (fun n => n * 1000), 2, c2⟩] := by
  obtain ⟨x1, xs1, rfl⟩ := List.exists_cons_of_ne_nil ha1
  obtain ⟨y1, ys1, rfl⟩ := List.exists_cons_of_ne_nil hh1
  obtain ⟨x2, xs2, rfl⟩ := List.exists_cons_of_ne_nil ha2
  obtain ⟨y2, ys2, rfl⟩ := List.exists_cons_of_ne_nil hh2
  have s1 : noNL ("author ".data ++ (x1 :: xs1)) := noNL_append (by decide) na1
  have s2 : noNL ("author-time ".data ++ t1) := noNL_append (by decide) nt1
  have s3 : noNL ("hash ".data ++ (y1 :: ys1)) := noNL_append (by decide) nh1
  have s4 : noNL ('\t' :: c1) := noNL_cons (by decide) nc1
  have s5 : noNL ("author ".data ++ (x2 :: xs2)) := noNL_append (by decide) na2
  have s6 : noNL ("author-time ".data ++ t2) := noNL_append (by decide) nt2
  have s7 : noNL ("hash ".data ++ (y2 :: ys2)) := noNL_append (by decide) nh2
  have s8 : noNL ('\t' :: c2) := noNL_cons (by decide) nc2
  unfold parseBlame mkBlameText
  rw [splitOnNL_append _ _ s1, splitOnNL_append _ _ s2, splitOnNL_append _ _ s3,
      splitOnNL_append _ _ s4, splitOnNL_append _ _ s5, splitOnNL_append _ _ s6,
      splitOnNL_append _ _ s7, splitOnNL_single _ s8]
  rfl

/-- Witness for C7 at concrete block contents. -/
theorem parseBlame_two_block_emission_witness :
    parseBlame (mkBlameText "Al".data "100".data "abc".data "x".data
        "Bo".data "200".data "def".data "y".data)
      = [⟨"abc".data, "Al".data, some 100000, 1, "x".data⟩,
         ⟨"def".data, "Bo".data, some 200000, 2, "y".data⟩] :=
  (parseBlame_two_block_emission "Al".data "100".data "abc".data "x".data
      "Bo".data "200".data "def".data "y".data
      (by decide) (by decide) (by decide) (by decide)
      (by decide) (by decide) (by decide) (by decide)
      (by decide) (by decide) (by decide) (by decide)).trans (by decide)

theorem tryInsertions_present (sA rest : Str) (hA : allDigits sA) (hne : sA ≠ []) :
    tryInsertions (", ".data ++ (sA ++ (" insertions(+)".data ++ rest)))
      = (some sA, rest) := by
  have key : splitDigits (sA ++ (" insertions(+)".data ++ rest))
      = (sA, " insertions(+)".data ++ rest) :=
    splitDigits_append_cons sA ' ' ("insertions(+)".data ++ rest) hA (by decide)
  unfold tryInsertions
  rw [stripPrefixCL_append_self]
  dsimp only
  rw [key]
  dsimp only
  rw [if_neg hne]
  rfl

theorem tryDeletions_present (sD rest : Str) (hD : allDigits sD) (hne : sD ≠ []) :
    tryDeletions (", ".data ++ (sD ++ (" deletions(-)".data ++ rest)))
      = (some sD, rest) := by
  have key : splitDigits (sD ++ (" deletions(-)".data ++ rest))
      = (sD, " deletions(-)".data ++ rest) :=
    splitDigits_append_cons sD ' ' ("deletions(-)".data ++ rest) hD (by decide)
  unfold tryDeletions
  rw [stripPrefixCL_append_self]
  dsimp only
  rw [key]
  dsimp only
  rw [if_neg hne]
  rfl

theorem tryInsertions_skips_deletions (sD : Str) (hD : allDigits sD) (hne : sD ≠ []) :
    tryInsertions (", ".data ++ (sD ++ " deletions(-)".data))
      = (none, ", ".data ++ (sD ++ " deletions(-)".data)) := by
  have key : splitDigits (sD ++ " deletions(-)".data)
      = (sD, " deletions(-)".data) :=
    splitDigits_append_cons sD ' ' ("deletions(-)".data) hD (by decide)
  unfold tryInsertions
  rw [stripPrefixCL_append_self]
  dsimp only
  rw [key]
  dsimp only
  rw [if_neg hne]
  rfl

theorem statsAfterChanged_full (sN sA sD : Str)
    (hA : allDigits sA) (hAne : sA ≠ []) (hD : allDigits sD) (hDne : sD ≠ []) :
    statsAfterChanged sN
        (", ".data ++ (sA ++ (" insertions(+), ".data ++ (sD ++ " deletions(-)".data))))
      = ⟨sN, some sA, some sD⟩ := by
  have h1 : tryInsertions
        (", ".data ++ (sA ++ (" insertions(+), ".data ++ (sD ++ " deletions(-)".data))))
      = (some sA, ", ".data ++ (sD ++ " deletions(-)".data)) :=
    tryInsertions_present sA (", ".data ++ (sD ++ " deletions(-)".data)) hA hAne
  have h2 : tryDeletions (", ".data ++ (sD ++ " deletions(-)".data))
      = (some sD, []) :=
    tryDeletions_present sD [] hD hDne
  unfold statsAfterChanged
  rw [h1]
  dsimp only
  rw [h2]

theorem statsAfterChanged_ins (sN sA : Str) (hA : allDigits sA) (hAne : sA ≠ []) :
    statsAfterChanged sN (", ".data ++ (sA ++ " insertions(+)".data))
      = ⟨sN, some sA, none⟩ := by
  have h1 : tryInsertions (", ".data ++ (sA ++ " insertions(+)".data))
      = (some sA, []) :=
    tryInsertions_present sA [] hA hAne
  unfold statsAfterChanged
  rw [h1]
  rfl

theorem statsAfterChanged_del (sN sD : Str) (hD : allDigits sD) (hDne : sD ≠ []) :
    statsAfterChanged sN (", ".data ++ (sD ++ " deletions(-)".data))
      = ⟨sN, none, some sD⟩ := by
  have h1 := tryInsertions_skips_deletions sD hD hDne
  have h2 : tryDeletions (", ".data ++ (sD ++ " deletions(-)".data))
      = (some sD, []) :=
    tryDeletions_present sD [] hD hDne
  unfold statsAfterChanged
  rw [h1]
  dsimp only
  rw [h2]

theorem statsAfterChanged_bare (sN : Str) :
    statsAfterChanged sN [] = ⟨sN, none, none⟩ := rfl

theorem tryStatsAt_full (sN sA sD : Str) (hN : allDigits sN) (hNne : sN ≠ [])
    (hA : allDigits sA) (hAne : sA ≠ []) (hD : allDigits sD) (hDne : sD ≠ []) :
    tryStatsAt (statsLineFull sN sA sD) = some ⟨sN, some sA, some sD⟩ := by
  have key : splitDigits (statsLineFull sN sA sD)
      = (sN, " files changed, ".data ++
          (sA ++ (" insertions(+), ".data ++ (sD ++ " deletions(-)".data)))) :=
    splitDigits_append_cons sN ' '
      ("files changed, ".data ++
        (sA ++ (" insertions(+), ".data ++ (sD ++ " deletions(-)".data)))) hN (by decide)
  unfold tryStatsAt
  rw [key]
  dsimp only
  rw [if_neg hNne]
  exact congrArg some (statsAfterChanged_full sN sA sD hA hAne hD hDne)

theorem tryStatsAt_ins (sN sA : Str) (hN : allDigits sN) (hNne : sN ≠ [])
    (hA : allDigits sA) (hAne : sA ≠ []) :
    tryStatsAt (statsLineIns sN sA) = some ⟨sN, some sA, none⟩ := by
  have key : splitDigits (statsLineIns sN sA)
      = (sN, " files changed, ".data ++ (sA ++ " insertions(+)".data)) :=
    splitDigits_append_cons sN ' '
      ("files changed, ".data ++ (sA ++ " insertions(+)".data)) hN (by decide)
  unfold tryStatsAt
  rw [key]
  dsimp only
  rw [if_neg hNne]
  exact congrArg some (statsAfterChanged_ins sN sA hA hAne)

theorem tryStatsAt_del (sN sD : Str) (hN : allDigits sN) (hNne : sN ≠ [])
    (hD : allDigits sD) (hDne : sD ≠ []) :
    tryStatsAt (statsLineDel sN sD) = some ⟨sN, none, some sD⟩ := by
  have key : splitDigits (statsLineDel sN sD)
      = (sN, " files changed, ".data ++ (sD ++ " deletions(-)".data)) :=
    splitDigits_append_cons sN ' '
      ("files changed, ".data ++ (sD ++ " deletions(-)".data)) hN (by decide)
  unfold tryStatsAt
  rw [key]
  dsimp only
  rw [if_neg hNne]
  exact congrArg some (statsAfterChanged_del sN sD hD hDne)

theorem tryStatsAt_bare (sN : Str) (hN : allDigits sN) (hNne : sN ≠ []) :
    tryStatsAt (statsLineBare sN) = some ⟨sN, none, none⟩ := by
  have key : splitDigits (statsLineBare sN)
      = (sN, " files changed".data) :=
    splitDigits_append_cons sN ' ' ("files changed".data) hN (by decide)
  unfold tryStatsAt
  rw [key]
  dsimp only
  rw [if_neg hNne]
  exact congrArg some (statsAfterChanged_bare sN)

theorem matchStatsFrom_of_head (l : Str) (g : StatsGroups)
    (h : tryStatsAt l = some g) : matchStatsFrom l = some g := by
  cases l with
  | nil =>
    have hnil : tryStatsAt ([] : Str) = none := by decide
    rw [hnil] at h
    exact Option.noConfusion h
  | cons c cs =>
    unfold matchStatsFrom
    rw [h]

/-- C8: for every non-empty stats text whose last line is
`"N files changed, A insertions(+), D deletions(-)"` (with `N`, `A`,
`D` non-empty decimal numerals), `parseGitStats` returns
`{files: N, additions: A, deletions: D}`; when the insertions or
deletions clause (or both) is omitted from the last line, the
corresponding field is 0. -/
theorem parseGitStats_summary_line (t sN sA sD : Str) (ht : t ≠ [])
    (hN : allDigits sN) (hNne : sN ≠ [])
    (hA : allDigits sA) (hAne : sA ≠ [])
    (hD : allDigits sD) (hDne : sD ≠ []) :
    ((splitOnNL t).getLastD [] = statsLineFull sN sA sD →
        parseGitStats (some t) = ⟨digitsToNat sA, digitsToNat sD, digitsToNat sN⟩)
    ∧ ((splitOnNL t).getLastD [] = statsLineIns sN sA →
        parseGitStats (some t) = ⟨digitsToNat sA, 0, digitsToNat sN⟩)
    ∧ ((splitOnNL t).getLastD [] = statsLineDel sN sD →
        parseGitStats (some t) = ⟨0, digitsToNat sD, digitsToNat sN⟩)
    ∧ ((splitOnNL t).getLastD [] = statsLineBare sN →
        parseGitStats (some t) = ⟨0, 0, digitsToNat sN⟩) := by
  refine ⟨?_, ?_, ?_, ?_⟩ <;> intro hlast <;> unfold parseGitStats <;>
    dsimp only <;> rw [if_neg ht] <;> rw [hlast]
  · rw [matchStatsFrom_of_head _ _ (tryStatsAt_full sN sA sD hN hNne hA hAne hD hDne)]
    rfl
  · rw [matchStatsFrom_of_head _ _ (tryStatsAt_ins sN sA hN hNne hA hAne)]
    rfl
  · rw [matchStatsFrom_of_head _ _ (tryStatsAt_del sN sD hN hNne hD hDne)]
    rfl
  · rw [matchStatsFrom_of_head _ _ (tryStatsAt_bare sN hN hNne)]
    rfl

/-- Witness for C8 on the concrete full summary line
`"3 files changed, 10 insertions(+), 2 deletions(-)"`. -/
theorem parseGitStats_summary_line_witness :
    parseGitStats (some (statsLineFull "3".data "10".data "2".data))
      = ⟨10, 2, 3⟩ :=
  ((parseGitStats_summary_line (statsLineFull "3".data "10".data "2".data)
      "3".data "10".data "2".data (by decide) (by decide) (by decide)
      (by decide) (by decide) (by decide) (by decide)).1 (by decide)).trans
    (by decide)

end GitAgent
